import Mathlib

/-!
Shallow embedding of the `NLP_Framework` text-to-metrics pipeline.

Python strings are modelled as `List Char` (`PyStr`), restricted to the
ASCII behaviour of the Python string methods the code uses.  Python
`float` arithmetic is modelled exactly over `ℚ`.  The two external
scoring collaborators (`textstat.flesch_reading_ease` and the VADER
`polarity_scores` compound value) are modelled as oracle parameters of
type `PyStr → Except Unit ℚ`, where `Except.error` models the library
raising an exception (caught by the `try/except` blocks in
`preprocessors.py`).

Sources embedded here:
  * `src/preprocessors.py` : `clean_text`, `default_parse`
  * `src/framework.py`     : stopword operations of `TextAnalysisFramework`
-/

namespace NLPF

/-- Python strings, modelled as lists of characters. -/
abbrev PyStr := List Char

/-! ### Character classes (ASCII fragments of the Python predicates) -/

/-- ASCII whitespace recognised by Python's `\s`, `str.split()` and
`str.strip()`: space (32), tab (9), newline (10), vertical tab (11),
form feed (12), carriage return (13); stated over character codes. -/
def pyIsSpace (c : Char) : Bool :=
  c.toNat = 32 || (9 ≤ c.toNat && c.toNat ≤ 13)

/-- The characters of Python's `string.punctuation`
(ASCII 33–47, 58–64, 91–96, 123–126). -/
def pyIsPunct (c : Char) : Bool :=
  (33 ≤ c.toNat && c.toNat ≤ 47) || (58 ≤ c.toNat && c.toNat ≤ 64) ||
  (91 ≤ c.toNat && c.toNat ≤ 96) || (123 ≤ c.toNat && c.toNat ≤ 126)

/-- ASCII decimal digit, the `\d` class and `str.isdigit` for ASCII text. -/
def isDig (c : Char) : Bool := '0' ≤ c && c ≤ '9'

/-- The regex class `[a-z]`. -/
def isLowerAZ (c : Char) : Bool := 'a' ≤ c && c ≤ 'z'

/-- The regex word class `\w` for ASCII: letters, digits and underscore. -/
def isWordCh (c : Char) : Bool := c.isAlphanum || c = '_'

/-- Python `str.lower` on one character (ASCII behaviour); this is exactly
core `Char.toLower`, named to mirror the Python method. -/
def lowerChar (c : Char) : Char := c.toLower

/-- Python `str.lower` (ASCII behaviour). -/
def pyLower (s : PyStr) : PyStr := s.map lowerChar

/-- Drop leading Python whitespace (the left half of `str.strip`). -/
def ltrim (s : PyStr) : PyStr := s.dropWhile pyIsSpace

/-- Drop trailing Python whitespace (the right half of `str.strip`). -/
def rtrim (s : PyStr) : PyStr := (s.reverse.dropWhile pyIsSpace).reverse

/-- Python `str.strip()` with no arguments: remove leading and trailing
whitespace. -/
def pyStrip (s : PyStr) : PyStr := ltrim (rtrim s)

/-! ### Character-level lemmas -/

theorem toNat_ofNat_valid {n : Nat} (h : n.isValidChar) :
    (Char.ofNat n).toNat = n := by
  rw [Char.ofNat, dif_pos h]
  rfl

theorem toLower_eq_self {c : Char} (h : ¬(c.toNat ≥ 65 ∧ c.toNat ≤ 90)) :
    Char.toLower c = c := by
  rw [Char.toLower, if_neg h]

theorem toLower_toNat_of_upper {c : Char}
    (h : c.toNat ≥ 65 ∧ c.toNat ≤ 90) :
    (Char.toLower c).toNat = c.toNat + 32 := by
  rw [Char.toLower, if_pos h]
  exact toNat_ofNat_valid (Or.inl (by omega))

theorem lowerChar_idem (c : Char) : lowerChar (lowerChar c) = lowerChar c := by
  unfold lowerChar
  by_cases h : c.toNat ≥ 65 ∧ c.toNat ≤ 90
  · have h1 : (Char.toLower c).toNat = c.toNat + 32 := toLower_toNat_of_upper h
    exact toLower_eq_self (by omega)
  · rw [toLower_eq_self h]
    exact toLower_eq_self h

theorem pyIsSpace_false_of_gt {d : Char} (hd : 32 < d.toNat) :
    pyIsSpace d = false := by
  simp only [pyIsSpace, Bool.or_eq_false_iff, Bool.and_eq_false_iff,
    decide_eq_false_iff_not]
  omega

theorem pyIsSpace_lowerChar (c : Char) :
    pyIsSpace (lowerChar c) = pyIsSpace c := by
  unfold lowerChar
  by_cases h : c.toNat ≥ 65 ∧ c.toNat ≤ 90
  · have h1 : (Char.toLower c).toNat = c.toNat + 32 := toLower_toNat_of_upper h
    rw [pyIsSpace_false_of_gt (by omega), pyIsSpace_false_of_gt (by omega)]
  · rw [toLower_eq_self h]

/-! ### Regex machinery for the three `re.sub` patterns of `clean_text`

Each pattern is embedded as a deterministic matcher that, given the
character preceding the current position (for `\b`) and the remaining
input, returns the length of the (greedy, leftmost) match starting
there, if any.  For these particular patterns greedy maximal-munch
coincides with Python's backtracking semantics because every quantified
class is disjoint from the character that must follow it.
-/

/-- Parser state for a matcher: characters consumed so far and the rest. -/
abbrev MState := Nat × PyStr

/-- Consume a non-empty maximal run of characters satisfying `p`. -/
def eatRun (p : Char → Bool) (st : MState) : Option MState :=
  let run := st.2.takeWhile p
  if run.isEmpty then none else some (st.1 + run.length, st.2.drop run.length)

/-- Consume exactly the character `c`. -/
def eatChar (c : Char) (st : MState) : Option MState :=
  match st.2 with
  | x :: rest => if x = c then some (st.1 + 1, rest) else none
  | [] => none

/-- Matcher for `\d+/\d+/\d{2,4},\s+\d+:\d+\s+(AM|PM)` (the timestamp
pattern of `clean_text`; no `re.IGNORECASE` flag, so `AM`/`PM` are
matched case-sensitively). -/
def matchTs (s : PyStr) : Option Nat := do
  let st1 ← eatRun isDig (0, s)
  let st2 ← eatChar '/' st1
  let st3 ← eatRun isDig st2
  let st4 ← eatChar '/' st3
  let d3 := st4.2.takeWhile isDig
  if d3.length < 2 ∨ 4 < d3.length then none else do
  let st5 : MState := (st4.1 + d3.length, st4.2.drop d3.length)
  let st6 ← eatChar ',' st5
  let st7 ← eatRun pyIsSpace st6
  let st8 ← eatRun isDig st7
  let st9 ← eatChar ':' st8
  let st10 ← eatRun isDig st9
  let st11 ← eatRun pyIsSpace st10
  match st11.2 with
  | 'A' :: 'M' :: _ => some (st11.1 + 2)
  | 'P' :: 'M' :: _ => some (st11.1 + 2)
  | _ => none

/-- Matcher for `http[s]?://\S+` (the URL pattern of `clean_text`). -/
def matchUrl (s : PyStr) : Option Nat := do
  let st1 ← eatChar 'h' (0, s)
  let st2 ← eatChar 't' st1
  let st3 ← eatChar 't' st2
  let st4 ← eatChar 'p' st3
  let st5 : MState := match st4.2 with
    | 's' :: rest => (st4.1 + 1, rest)
    | _ => st4
  let st6 ← eatChar ':' st5
  let st7 ← eatChar '/' st6
  let st8 ← eatChar '/' st7
  let st9 ← eatRun (fun c => !pyIsSpace c) st8
  some st9.1

/-- Matcher for `\b\d+/\d+\b` (the page-marker pattern of `clean_text`).
`prev` is the character before the current position (`none` at the start
of the string), needed for the left word boundary. -/
def matchPage (prev : Option Char) (s : PyStr) : Option Nat :=
  let wordBefore := match prev with
    | some c => isWordCh c
    | none => false
  if wordBefore then none else do
  let st1 ← eatRun isDig (0, s)
  let st2 ← eatChar '/' st1
  let st3 ← eatRun isDig st2
  match st3.2 with
  | [] => some st3.1
  | c :: _ => if isWordCh c then none else some st3.1

/-- One pass of `re.sub(pattern, "", text)`: scan left to right, delete
each (leftmost, non-overlapping) match, keep other characters.  `fuel`
is initialised to the input length; every step consumes at least one
character, so the fuel never runs out. -/
def reSubAux (m : Option Char → PyStr → Option Nat) :
    Nat → Option Char → PyStr → PyStr
  | 0, _, s => s
  | _ + 1, _, [] => []
  | fuel + 1, prev, c :: rest =>
    match m prev (c :: rest) with
    | some (n + 1) => reSubAux m fuel (((c :: rest).drop n).head?) (rest.drop n)
    | _ => c :: reSubAux m fuel (some c) rest

/-- `re.sub(pattern, "", text)` for a matcher `m`. -/
def reSub (m : Option Char → PyStr → Option Nat) (s : PyStr) : PyStr :=
  reSubAux m s.length none s

/-- One pass of `re.sub(r"\s+", " ", text)`: replace each maximal run of
whitespace by a single space.  The flag records being inside a run. -/
def collapseAux : Bool → PyStr → PyStr
  | _, [] => []
  | inRun, c :: rest =>
    if pyIsSpace c then
      if inRun then collapseAux true rest
      else ' ' :: collapseAux true rest
    else c :: collapseAux false rest

/-- `clean_text` from `src/preprocessors.py`: remove timestamps, then
URLs, then bare page markers, then collapse whitespace and strip. -/
def clean_text (text : PyStr) : PyStr :=
  pyStrip (collapseAux false
    (reSub matchPage
      (reSub (fun _ => matchUrl)
        (reSub (fun _ => matchTs) text))))

/-! ### Sentence segmentation and tokenization (`default_parse`, steps 2–3) -/

/-- A sentence delimiter of the regex class `[.!?]`. -/
def sentDelim (c : Char) : Bool := c = '.' || c = '!' || c = '?'

/-- `re.split(r"[.!?]+", s)`: split on maximal non-empty runs of
delimiters, keeping empty pieces (as Python does).  `inRun` records
being inside a delimiter run, `acc` is the current piece reversed. -/
def reSplitAux (p : Char → Bool) : Bool → PyStr → PyStr → List PyStr
  | _, acc, [] => [acc.reverse]
  | inRun, acc, c :: rest =>
    if p c then
      if inRun then reSplitAux p true acc rest
      else acc.reverse :: reSplitAux p true [] rest
    else reSplitAux p false (c :: acc) rest

/-- `re.split(r"[.!?]+", s)`. -/
def reSplitRuns (s : PyStr) : List PyStr := reSplitAux sentDelim false [] s

/-- `valid_sentences = [s.strip() for s in sentences if s.strip()]`. -/
def validSentences (lowerText : PyStr) : List PyStr :=
  ((reSplitRuns lowerText).map pyStrip).filter (fun s => !s.isEmpty)

/-- Python `str.split()` with no arguments: split on whitespace runs,
dropping empty pieces.  `acc` is the current word reversed. -/
def splitWsAux : PyStr → PyStr → List PyStr
  | acc, [] => if acc.isEmpty then [] else [acc.reverse]
  | acc, c :: rest =>
    if pyIsSpace c then
      if acc.isEmpty then splitWsAux [] rest
      else acc.reverse :: splitWsAux [] rest
    else splitWsAux (c :: acc) rest

/-- Python `str.split()` with no arguments. -/
def splitWs (s : PyStr) : List PyStr := splitWsAux [] s

/-- `re.match(r"^[a-z]*\d+[a-z]*$", w)` as a Boolean: optional lowercase
letters, then at least one digit, then optional lowercase letters
(the course-code heuristic). -/
def isCourseCode (w : PyStr) : Bool :=
  let a := w.takeWhile isLowerAZ
  let r1 := w.drop a.length
  let d := r1.takeWhile isDig
  let b := r1.drop d.length
  !d.isEmpty && b.all isLowerAZ

/-- Python `str.isdigit` for ASCII text: non-empty and all digits. -/
def pyIsdigit (w : PyStr) : Bool := !w.isEmpty && w.all isDig

/-- Steps 3 of `default_parse`: strip `string.punctuation`, split on
whitespace, and drop pure numbers and course-code-like tokens. -/
def tokensOf (lowerText : PyStr) : List PyStr :=
  (splitWs (lowerText.filter (fun c => !pyIsPunct c))).filter
    (fun w => !pyIsdigit w && !isCourseCode w)

/-- `filtered_tokens = [w for w in tokens if w not in stop_words]`. -/
def filteredTokens (lowerText : PyStr) (stop_words : Finset PyStr) : List PyStr :=
  (tokensOf lowerText).filter (fun w => !decide (w ∈ stop_words))

/-! ### Numeric steps of `default_parse` (exact `ℚ` model of the float code) -/

/-- Arithmetic mean of a list, `0` for the empty list
(`sum(l)/len(l) if l else 0`). -/
def listMean (l : List ℚ) : ℚ := if l.isEmpty then 0 else l.sum / l.length

/-- The clamp `max(min(r, 100), 0)` applied to the computed
Flesch reading-ease score. -/
def clamp100 (r : ℚ) : ℚ := max (min r 100) 0

/-- The extremity-dampening transform applied to the mean compound
sentiment score (lines 105–108 of `preprocessors.py`). -/
def dampen (m : ℚ) : ℚ :=
  if m > 0.9 then 0.9 + (m - 0.9) * 0.1
  else if m < -0.9 then -0.9 + (m + 0.9) * 0.1
  else m

/-- The metrics dictionary returned by `default_parse`.  `word_count`
is modelled as the counting function of the filtered token list (the
Python `dict(Counter(...))` maps absent keys to no entry; here absent
keys map to count `0`). -/
structure MetricsRecord where
  word_count : PyStr → Nat
  word_length : ℚ
  sentence_length : ℚ
  type_token_ratio : ℚ
  readability : ℚ
  sentiment : ℚ

/-- `default_parse` from `src/preprocessors.py`.

`fre` models `textstat.flesch_reading_ease` and `vader` models the
compound value of `SentimentIntensityAnalyzer().polarity_scores`;
`Except.error` models the library raising (caught by the surrounding
`try/except`, which also catches a failing analyzer construction —
modelled by a `vader` that errors on every sentence). -/
def default_parse (text : PyStr) (stop_words : Finset PyStr)
    (fre : PyStr → Except Unit ℚ) (vader : PyStr → Except Unit ℚ) :
    MetricsRecord :=
  let cleaned := clean_text text
  let text_lower := pyLower cleaned
  let valid := validSentences text_lower
  let filtered := filteredTokens text_lower stop_words
  let word_len_avg : ℚ :=
    if filtered.isEmpty then 0
    else ((filtered.map List.length).sum : ℚ) / filtered.length
  let avg_sentence_len : ℚ :=
    if valid.isEmpty then 0
    else ((valid.map (fun s => (splitWs s).length)).sum : ℚ) / valid.length
  let type_token : ℚ :=
    if filtered.isEmpty then 0
    else (filtered.dedup.length : ℚ) / filtered.length
  let readability0 : ℚ :=
    match fre cleaned with
    | .ok r => clamp100 r
    | .error _ => 50
  let readability : ℚ := if valid.length < 3 then 50 else readability0
  let sentiment : ℚ :=
    match valid.mapM vader with
    | .ok scores => dampen (listMean scores)
    | .error _ => 0
  { word_count := fun w => filtered.count w
    word_length := word_len_avg
    sentence_length := avg_sentence_len
    type_token_ratio := type_token
    readability := readability
    sentiment := sentiment }

/-! ### Stopword operations of `TextAnalysisFramework` (`src/framework.py`)

The instance attribute `self.stop_words` is modelled as an explicit
`Finset PyStr` value threaded through the operations.
-/

/-- The framework's stopword set. -/
abbrev Stopwords := Finset PyStr

/-- The normalization `word.strip().lower()` applied by every stopword
operation. -/
def normalizeWord (w : PyStr) : PyStr := pyLower (pyStrip w)

/-- `add_stopword`: `self.stop_words.add(word.strip().lower())`. -/
def add_stopword (S : Stopwords) (w : PyStr) : Stopwords :=
  insert (normalizeWord w) S

/-- `remove_stopword`: `self.stop_words.discard(word.strip().lower())`. -/
def remove_stopword (S : Stopwords) (w : PyStr) : Stopwords :=
  S.erase (normalizeWord w)

/-- `update_stopwords(word_list, action)`: per word, add for `"add"`,
remove for `"remove"`, otherwise raise `ValueError` (modelled as
`Except.error ()`; note the check runs inside the loop, so an empty
`word_list` raises nothing). -/
def update_stopwords (S : Stopwords) (word_list : List PyStr)
    (action : PyStr) : Except Unit Stopwords :=
  match word_list with
  | [] => .ok S
  | w :: rest =>
    if action = "add".toList then
      update_stopwords (add_stopword S w) rest action
    else if action = "remove".toList then
      update_stopwords (remove_stopword S w) rest action
    else .error ()

/-- Python text-mode universal-newline translation applied when reading
a file: `\r\n` and bare `\r` both become `\n`.  The flag records that
the previous character was a `\r` (already emitted as `\n`), so that a
following `\n` is absorbed. -/
def univNlAux : Bool → PyStr → PyStr
  | _, [] => []
  | prevCr, c :: rest =>
    if c = '\r' then '\n' :: univNlAux true rest
    else if c = '\n' then
      (if prevCr then univNlAux false rest else '\n' :: univNlAux false rest)
    else c :: univNlAux false rest

/-- Python text-mode universal-newline translation. -/
def univNl (s : PyStr) : PyStr := univNlAux false s

/-- `f.readlines()` on translated content: split after each `'\n'`
(which stays part of its line); a last line without `'\n'` is kept,
and an empty tail yields no extra line.  `acc` is the current line
reversed. -/
def readlinesAux : PyStr → PyStr → List PyStr
  | acc, [] => if acc.isEmpty then [] else [acc.reverse]
  | acc, c :: rest =>
    if c = '\n' then (acc.reverse ++ ['\n']) :: readlinesAux [] rest
    else readlinesAux (c :: acc) rest

/-- `f.readlines()` in text mode on raw file content. -/
def readlines (content : PyStr) : List PyStr :=
  readlinesAux [] (univNl content)

/-- `load_stop_words`: replace the set by
`set(word.strip().lower() for word in f.readlines())`, where `content`
is the raw content of the stopword file. -/
def load_stop_words (content : PyStr) : Stopwords :=
  ((readlines content).map normalizeWord).toFinset

/-- Lexicographic comparison of strings by code point, Python's `<=`
on `str`, used by `sorted`. -/
def pyLe : PyStr → PyStr → Bool
  | [], _ => true
  | _ :: _, [] => false
  | a :: xs, b :: ys =>
    if a.toNat < b.toNat then true
    else if b.toNat < a.toNat then false
    else pyLe xs ys

/-- `pyLe` as a `Prop` relation, for `Finset.sort`. -/
def wordLe (v w : PyStr) : Prop := pyLe v w = true

instance : DecidableRel wordLe := fun v w => by
  unfold wordLe; infer_instance

theorem char_toNat_inj {c d : Char} (h : c.toNat = d.toNat) : c = d :=
  Char.ext (UInt32.ext h)

theorem pyLe_total (v w : PyStr) : pyLe v w = true ∨ pyLe w v = true := by
  induction v generalizing w with
  | nil => exact Or.inl rfl
  | cons a xs ih =>
    cases w with
    | nil => exact Or.inr rfl
    | cons b ys =>
      by_cases hab : a.toNat < b.toNat
      · exact Or.inl (by simp [pyLe, hab])
      · by_cases hba : b.toNat < a.toNat
        · exact Or.inr (by simp [pyLe, hba])
        · rcases ih ys with h | h
          · exact Or.inl (by simp [pyLe, hab, hba, h])
          · exact Or.inr (by simp [pyLe, hab, hba, h])

theorem pyLe_antisymm {v w : PyStr} (h1 : pyLe v w = true)
    (h2 : pyLe w v = true) : v = w := by
  induction v generalizing w with
  | nil =>
    cases w with
    | nil => rfl
    | cons b ys => simp [pyLe] at h2
  | cons a xs ih =>
    cases w with
    | nil => simp [pyLe] at h1
    | cons b ys =>
      by_cases hab : a.toNat < b.toNat
      · simp [pyLe, hab, Nat.lt_asymm hab] at h2
      · by_cases hba : b.toNat < a.toNat
        · simp [pyLe, hab, hba] at h1
        · have : a = b := char_toNat_inj (by omega)
          subst this
          simp only [pyLe, hab, if_neg, if_false] at h1 h2
          rw [ih h1 h2]

theorem pyLe_trans {u v w : PyStr} (h1 : pyLe u v = true)
    (h2 : pyLe v w = true) : pyLe u w = true := by
  induction u generalizing v w with
  | nil => rfl
  | cons a xs ih =>
    cases v with
    | nil => simp [pyLe] at h1
    | cons b ys =>
      cases w with
      | nil => simp [pyLe] at h2
      | cons c zs =>
        simp only [pyLe] at h1 h2 ⊢
        by_cases hab : a.toNat < b.toNat
        · by_cases hbc : b.toNat < c.toNat
          · rw [if_pos (by omega)]
          · rw [if_neg hbc] at h2
            by_cases hcb : c.toNat < b.toNat
            · rw [if_pos hcb] at h2; exact absurd h2 (by simp)
            · rw [if_pos (by omega)]
        · rw [if_neg hab] at h1
          by_cases hba : b.toNat < a.toNat
          · rw [if_pos hba] at h1; exact absurd h1 (by simp)
          · rw [if_neg hba] at h1
            by_cases hbc : b.toNat < c.toNat
            · rw [if_pos (by omega)]
            · rw [if_neg hbc] at h2
              by_cases hcb : c.toNat < b.toNat
              · rw [if_pos hcb] at h2; exact absurd h2 (by simp)
              · rw [if_neg hcb] at h2
                rw [if_neg (show ¬ a.toNat < c.toNat by omega),
                  if_neg (show ¬ c.toNat < a.toNat by omega)]
                exact ih h1 h2

instance : IsTrans PyStr wordLe := ⟨fun _ _ _ => pyLe_trans⟩

instance : IsAntisymm PyStr wordLe := ⟨fun _ _ => pyLe_antisymm⟩

instance : IsTotal PyStr wordLe := ⟨pyLe_total⟩

/-- `save_stopwords`: the written file content,
`for word in sorted(self.stop_words): f.write(word + "\n")`. -/
def save_stopwords (S : Stopwords) : PyStr :=
  ((S.sort wordLe).map (fun w => w ++ ['\n'])).flatten

/-- A stopword operation of the framework API, for stating invariants
over arbitrary operation sequences. -/
inductive StopOp
  | load (content : PyStr)
  | add (w : PyStr)
  | remove (w : PyStr)
  | update (wl : List PyStr) (action : PyStr)

/-- Apply one operation to the framework state.  A raising
`update_stopwords` leaves the set unchanged (the `ValueError` is thrown
on the first word, before any mutation). -/
def applyOp (S : Stopwords) : StopOp → Stopwords
  | .load c => load_stop_words c
  | .add w => add_stopword S w
  | .remove w => remove_stopword S w
  | .update wl a =>
    match update_stopwords S wl a with
    | .ok S2 => S2
    | .error _ => S

/-- Apply a sequence of stopword operations starting from `S`. -/
def applyOps (S : Stopwords) (ops : List StopOp) : Stopwords :=
  ops.foldl applyOp S

/-! ### Field computation lemmas for `default_parse` -/

theorem default_parse_readability (text : PyStr) (sw : Stopwords)
    (fre vader : PyStr → Except Unit ℚ) :
    (default_parse text sw fre vader).readability =
      if (validSentences (pyLower (clean_text text))).length < 3 then 50
      else
        match fre (clean_text text) with
        | .ok r => clamp100 r
        | .error _ => 50 := by
  simp only [default_parse]

theorem default_parse_sentiment (text : PyStr) (sw : Stopwords)
    (fre vader : PyStr → Except Unit ℚ) :
    (default_parse text sw fre vader).sentiment =
      match (validSentences (pyLower (clean_text text))).mapM vader with
      | .ok scores => dampen (listMean scores)
      | .error _ => 0 := by
  simp only [default_parse]

theorem default_parse_ttr (text : PyStr) (sw : Stopwords)
    (fre vader : PyStr → Except Unit ℚ) :
    (default_parse text sw fre vader).type_token_ratio =
      if (filteredTokens (pyLower (clean_text text)) sw).isEmpty then 0
      else ((filteredTokens (pyLower (clean_text text)) sw).dedup.length : ℚ) /
        (filteredTokens (pyLower (clean_text text)) sw).length := by
  simp only [default_parse]

theorem default_parse_word_count (text : PyStr) (sw : Stopwords)
    (fre vader : PyStr → Except Unit ℚ) (w : PyStr) :
    (default_parse text sw fre vader).word_count w =
      (filteredTokens (pyLower (clean_text text)) sw).count w := by
  simp only [default_parse]

theorem default_parse_word_length (text : PyStr) (sw : Stopwords)
    (fre vader : PyStr → Except Unit ℚ) :
    (default_parse text sw fre vader).word_length =
      if (filteredTokens (pyLower (clean_text text)) sw).isEmpty then 0
      else (((filteredTokens (pyLower (clean_text text)) sw).map
          List.length).sum : ℚ) /
        (filteredTokens (pyLower (clean_text text)) sw).length := by
  simp only [default_parse]

theorem default_parse_sentence_length (text : PyStr) (sw : Stopwords)
    (fre vader : PyStr → Except Unit ℚ) :
    (default_parse text sw fre vader).sentence_length =
      if (validSentences (pyLower (clean_text text))).isEmpty then 0
      else (((validSentences (pyLower (clean_text text))).map
          (fun s => (splitWs s).length)).sum : ℚ) /
        (validSentences (pyLower (clean_text text))).length := by
  simp only [default_parse]

/-! ### Claim C2 — readability bounds and the too-few-sentences fallback -/

theorem clamp100_nonneg (r : ℚ) : 0 ≤ clamp100 r := le_max_right _ _

theorem clamp100_le (r : ℚ) : clamp100 r ≤ 100 :=
  max_le (min_le_right r 100) (by norm_num)

/-- C2: for every text, stopword set and behaviour of the scoring
library, the readability field lies in `[0, 100]`; and whenever fewer
than 3 valid sentences exist, it equals exactly 50. -/
theorem c2_readability_bounds_and_fallback (text : PyStr) (sw : Stopwords)
    (fre vader : PyStr → Except Unit ℚ) :
    0 ≤ (default_parse text sw fre vader).readability ∧
    (default_parse text sw fre vader).readability ≤ 100 ∧
    ((validSentences (pyLower (clean_text text))).length < 3 →
      (default_parse text sw fre vader).readability = 50) := by
  rw [default_parse_readability]
  split
  · exact ⟨by norm_num, by norm_num, fun _ => rfl⟩
  · next hge =>
    refine ⟨?_, ?_, fun hlt => absurd hlt hge⟩ <;>
      rcases fre (clean_text text) with e | r <;>
      first
      | exact clamp100_nonneg r
      | exact clamp100_le r
      | norm_num

/-- C2 witness: on the empty text there are 0 valid sentences, and the
readability of the resulting record is 50. -/
theorem c2_witness :
    (validSentences (pyLower (clean_text []))).length < 3 ∧
    (default_parse [] ∅ (fun _ => .ok 80) (fun _ => .ok 0)).readability = 50 :=
  ⟨by decide,
    (c2_readability_bounds_and_fallback [] ∅ (fun _ => .ok 80)
      (fun _ => .ok 0)).2.2 (by decide)⟩

/-! ### Claim C6 — type-token ratio bounds -/

theorem ttr_lemma (l : List PyStr) :
    0 ≤ (if l.isEmpty then (0 : ℚ) else (l.dedup.length : ℚ) / l.length) ∧
    (if l.isEmpty then (0 : ℚ) else (l.dedup.length : ℚ) / l.length) ≤ 1 ∧
    ((if l.isEmpty then (0 : ℚ) else (l.dedup.length : ℚ) / l.length) = 0 ↔
      l.length = 0) := by
  rcases eq_or_ne l [] with rfl | hne
  · simp
  · have hemp : l.isEmpty = false := by simpa [List.isEmpty_iff] using hne
    have hlen : 0 < l.length := List.length_pos.mpr hne
    have hd : 0 < l.dedup.length :=
      List.length_pos.mpr (by simpa [Ne, List.dedup_eq_nil] using hne)
    have hdle : l.dedup.length ≤ l.length := (List.dedup_sublist l).length_le
    have hql : (0 : ℚ) < l.length := by exact_mod_cast hlen
    have hqd : (0 : ℚ) < l.dedup.length := by exact_mod_cast hd
    rw [hemp]
    simp only [Bool.false_eq_true, if_false]
    refine ⟨le_of_lt (div_pos hqd hql), ?_, ?_⟩
    · rw [div_le_one hql]
      exact_mod_cast hdle
    · constructor
      · intro h
        exact absurd h (ne_of_gt (div_pos hqd hql))
      · intro h
        omega

/-- C6: the type-token ratio of every parse lies in `[0, 1]` and is `0`
iff the filtered token count is `0`. -/
theorem c6_ttr_bounds (text : PyStr) (sw : Stopwords)
    (fre vader : PyStr → Except Unit ℚ) :
    0 ≤ (default_parse text sw fre vader).type_token_ratio ∧
    (default_parse text sw fre vader).type_token_ratio ≤ 1 ∧
    ((default_parse text sw fre vader).type_token_ratio = 0 ↔
      (filteredTokens (pyLower (clean_text text)) sw).length = 0) := by
  rw [default_parse_ttr]
  exact ttr_lemma _

/-! ### Claim C3 — sentiment: mean of per-sentence scores, dampened once -/

theorem mapM_ok_mem {f : PyStr → Except Unit ℚ} :
    ∀ {l : List PyStr} {out : List ℚ}, l.mapM f = .ok out →
      ∀ x ∈ out, ∃ s ∈ l, f s = .ok x := by
  intro l
  induction l with
  | nil =>
    intro out h x hx
    simp only [List.mapM_nil, pure, Except.pure] at h
    cases h
    simp at hx
  | cons a t ih =>
    intro out h x hx
    rw [List.mapM_cons] at h
    cases hfa : f a with
    | error e =>
      rw [hfa] at h
      simp only [bind, Except.bind] at h
      cases h
    | ok y =>
      rw [hfa] at h
      simp only [bind, Except.bind] at h
      cases hmt : t.mapM f with
      | error e =>
        rw [hmt] at h
        simp only [bind, Except.bind] at h
        cases h
      | ok ys =>
        rw [hmt] at h
        simp only [bind, Except.bind, pure, Except.pure] at h
        cases h
        rcases List.mem_cons.mp hx with rfl | hxs
        · exact ⟨a, List.mem_cons_self a t, hfa⟩
        · obtain ⟨s, hs, hfs⟩ := ih hmt x hxs
          exact ⟨s, List.mem_cons_of_mem a hs, hfs⟩

theorem listMean_bounds {l : List ℚ} (h : ∀ x ∈ l, -1 ≤ x ∧ x ≤ 1) :
    -1 ≤ listMean l ∧ listMean l ≤ 1 := by
  rcases eq_or_ne l [] with rfl | hne
  · simp [listMean]
  · have hemp : l.isEmpty = false := by simpa [List.isEmpty_iff] using hne
    have hlen : 0 < l.length := List.length_pos.mpr hne
    have hql : (0 : ℚ) < l.length := by exact_mod_cast hlen
    have hup : l.sum ≤ l.length • (1 : ℚ) :=
      List.sum_le_card_nsmul l 1 (fun x hx => (h x hx).2)
    have hlo : l.length • (-1 : ℚ) ≤ l.sum :=
      List.card_nsmul_le_sum l (-1) (fun x hx => (h x hx).1)
    rw [nsmul_eq_mul, mul_one] at hup
    rw [nsmul_eq_mul, mul_neg_one] at hlo
    unfold listMean
    rw [hemp]
    simp only [Bool.false_eq_true, if_false]
    constructor
    · rw [le_div_iff₀ hql]
      linarith
    · rw [div_le_one hql]
      exact hup

theorem dampen_bounds {m : ℚ} (h : -1 ≤ m ∧ m ≤ 1) :
    -(91/100) ≤ dampen m ∧ dampen m ≤ 91/100 := by
  unfold dampen
  split_ifs with h1 h2 <;> constructor <;> linarith

/-- C3: the sentiment field is `dampen` applied (once) to the arithmetic
mean of the per-sentence compound scores over the valid sentences (`0`
mean for none); and if every per-sentence score lies in `[-1, 1]`, the
result lies in `[-0.91, 0.91] ⊆ [-1, 1]`. -/
theorem c3_sentiment_mean_dampen_bounds (text : PyStr) (sw : Stopwords)
    (fre vader : PyStr → Except Unit ℚ)
    (hb : ∀ s r, vader s = .ok r → -1 ≤ r ∧ r ≤ 1) :
    (∀ scores, (validSentences (pyLower (clean_text text))).mapM vader =
        .ok scores →
      (default_parse text sw fre vader).sentiment = dampen (listMean scores)) ∧
    -1 ≤ (default_parse text sw fre vader).sentiment ∧
    (default_parse text sw fre vader).sentiment ≤ 1 ∧
    -(91/100) ≤ (default_parse text sw fre vader).sentiment ∧
    (default_parse text sw fre vader).sentiment ≤ 91/100 := by
  have heq : ∀ scores,
      (validSentences (pyLower (clean_text text))).mapM vader = .ok scores →
      (default_parse text sw fre vader).sentiment = dampen (listMean scores) := by
    intro scores hs
    rw [default_parse_sentiment, hs]
  refine ⟨heq, ?_⟩
  rw [default_parse_sentiment]
  cases hm : (validSentences (pyLower (clean_text text))).mapM vader with
  | error e => norm_num
  | ok scores =>
    have hsc : ∀ x ∈ scores, -1 ≤ x ∧ x ≤ 1 := by
      intro x hx
      obtain ⟨s, _, hfs⟩ := mapM_ok_mem hm x hx
      exact hb s x hfs
    have hmean := listMean_bounds hsc
    have hd := dampen_bounds hmean
    exact ⟨by linarith [hd.1], by linarith [hd.2], hd.1, hd.2⟩

/-- C3 witness: with a scorer that returns `1` for every sentence and a
three-sentence text, the hypotheses hold and in particular the
sentiment of the record equals the dampened mean. -/
theorem c3_witness :
    (default_parse ("One. Two. Three.".toList) ∅ (fun _ => .ok 60)
        (fun _ => .ok 1)).sentiment = dampen (listMean [1, 1, 1]) :=
  (c3_sentiment_mean_dampen_bounds ("One. Two. Three.".toList) ∅
      (fun _ => .ok 60) (fun _ => .ok 1)
      (fun s r h => by
        cases h
        exact ⟨by norm_num, le_refl 1⟩)).1
    [1, 1, 1] (by rfl)

/-! ### Claim C10 — removing an absent stopword is a silent no-op -/

/-- C10: `remove_stopword` on a word whose normalized form is absent
raises nothing (it is total) and leaves the set unchanged
(`set.discard` semantics). -/
theorem c10_remove_absent_noop (S : Stopwords) (w : PyStr)
    (h : normalizeWord w ∉ S) : remove_stopword S w = S :=
  Finset.erase_eq_of_not_mem h

/-- C10 witness: removing `" Foo "` from the empty stopword set. -/
theorem c10_witness :
    normalizeWord (" Foo ".toList) ∉ (∅ : Stopwords) ∧
    remove_stopword ∅ (" Foo ".toList) = ∅ :=
  ⟨by decide, c10_remove_absent_noop ∅ (" Foo ".toList) (by decide)⟩

/-! ### Claim C4 — `update_stopwords` action validation -/

/-- C4 (amended): with a *non-empty* word list, an action other than
`"add"`/`"remove"` raises `ValueError`; action `"add"` adds every word
(normalized) and `"remove"` removes every word.  (An empty word list
never reaches the action check, so no error is raised then.) -/
theorem c4_update_stopwords_amended (S : Stopwords) (wl : List PyStr)
    (a : PyStr) :
    (a ≠ "add".toList → a ≠ "remove".toList → wl ≠ [] →
      update_stopwords S wl a = .error ()) ∧
    update_stopwords S wl ("add".toList) = .ok (wl.foldl add_stopword S) ∧
    update_stopwords S wl ("remove".toList) =
      .ok (wl.foldl remove_stopword S) := by
  refine ⟨?_, ?_, ?_⟩
  · intro ha hr hwl
    match wl with
    | [] => exact absurd rfl hwl
    | w :: rest =>
      unfold update_stopwords
      rw [if_neg ha, if_neg hr]
  · induction wl generalizing S with
    | nil => rfl
    | cons w rest ih =>
      unfold update_stopwords
      rw [if_pos rfl, List.foldl_cons]
      exact ih (add_stopword S w)
  · induction wl generalizing S with
    | nil => rfl
    | cons w rest ih =>
      unfold update_stopwords
      rw [if_neg (by decide), if_pos rfl, List.foldl_cons]
      exact ih (remove_stopword S w)

/-- C4 witness: the invalid action `"zap"` on a singleton word list
raises, and `"add"`/`"remove"` perform the bulk update. -/
theorem c4_witness :
    update_stopwords ∅ ["x".toList] ("zap".toList) = .error () ∧
    update_stopwords ∅ ["x".toList] ("add".toList) =
      .ok (["x".toList].foldl add_stopword ∅) :=
  ⟨(c4_update_stopwords_amended ∅ ["x".toList] ("zap".toList)).1
      (by decide) (by decide) (by decide),
    (c4_update_stopwords_amended ∅ ["x".toList] ("zap".toList)).2.1⟩

/-- C4 counterexample to the claim as stated: with an *empty* word list
and the invalid action `"zap"`, `update_stopwords` raises nothing and
returns the set unchanged. -/
theorem c4_counterexample :
    update_stopwords ∅ [] ("zap".toList) = .ok ∅ ∧
    "zap".toList ≠ "add".toList ∧ "zap".toList ≠ "remove".toList := by
  refine ⟨rfl, by decide, by decide⟩

/-! ### Claim C9 — degenerate input and scoring failures never error -/

/-- C9 (amended): on empty text with the default empty stopword set,
`default_parse` (total by construction — all scoring failures are
caught) returns the degenerate record whose fields are all zero except
`readability`, which takes the fallback value 50; and for every text,
a failing readability scorer yields 50 and a failing sentiment scorer
yields 0 instead of an error. -/
theorem c9_degenerate_record_and_fallbacks :
    (∀ fre vader : PyStr → Except Unit ℚ,
      (∀ w, (default_parse [] ∅ fre vader).word_count w = 0) ∧
      (default_parse [] ∅ fre vader).word_length = 0 ∧
      (default_parse [] ∅ fre vader).sentence_length = 0 ∧
      (default_parse [] ∅ fre vader).type_token_ratio = 0 ∧
      (default_parse [] ∅ fre vader).readability = 50 ∧
      (default_parse [] ∅ fre vader).sentiment = 0) ∧
    (∀ (text : PyStr) (sw : Stopwords) (fre vader : PyStr → Except Unit ℚ),
      fre (clean_text text) = .error () →
      (default_parse text sw fre vader).readability = 50) ∧
    (∀ (text : PyStr) (sw : Stopwords) (fre vader : PyStr → Except Unit ℚ),
      (validSentences (pyLower (clean_text text))).mapM vader = .error () →
      (default_parse text sw fre vader).sentiment = 0) := by
  refine ⟨?_, ?_, ?_⟩
  · intro fre vader
    have hv : validSentences (pyLower (clean_text [])) = [] := rfl
    have hf : ∀ sw, filteredTokens (pyLower (clean_text [])) sw = [] :=
      fun sw => rfl
    refine ⟨?_, ?_, ?_, ?_, ?_, ?_⟩
    · intro w
      rw [default_parse_word_count, hf]
      rfl
    · rw [default_parse_word_length, hf]
      rfl
    · rw [default_parse_sentence_length, hv]
      rfl
    · rw [default_parse_ttr, hf]
      rfl
    · rw [default_parse_readability, hv]
      rfl
    · rw [default_parse_sentiment, hv]
      rw [show (([] : List PyStr).mapM vader) = Except.ok [] from rfl]
      norm_num [listMean, dampen]
  · intro text sw fre vader herr
    rw [default_parse_readability]
    split
    · rfl
    · rw [herr]
  · intro text sw fre vader herr
    rw [default_parse_sentiment, herr]

/-- C9 witness: with concrete always-failing scorers, the empty text
yields the record fields above, and the failure fallbacks fire. -/
theorem c9_witness :
    (default_parse [] ∅ (fun _ => .error ()) (fun _ => .error ())).readability
      = 50 ∧
    (default_parse ("A. B. C. D.".toList) ∅ (fun _ => .error ())
      (fun _ => .error ())).readability = 50 ∧
    (default_parse ("A. B. C. D.".toList) ∅ (fun _ => .error ())
      (fun _ => .error ())).sentiment = 0 :=
  ⟨(c9_degenerate_record_and_fallbacks.1 (fun _ => .error ())
      (fun _ => .error ())).2.2.2.2.1,
    c9_degenerate_record_and_fallbacks.2.1 ("A. B. C. D.".toList) ∅
      (fun _ => .error ()) (fun _ => .error ()) rfl,
    c9_degenerate_record_and_fallbacks.2.2 ("A. B. C. D.".toList) ∅
      (fun _ => .error ()) (fun _ => .error ()) (by rfl)⟩

/-- C9 counterexample to the claim as stated: the record for empty text
is not all-zero — its readability is the fallback 50, not 0. -/
theorem c9_counterexample :
    (default_parse [] ∅ (fun _ => .error ())
      (fun _ => .error ())).readability ≠ 0 ∧
    (default_parse [] ∅ (fun _ => .error ())
      (fun _ => .error ())).readability = 50 := by
  constructor
  · rw [default_parse_readability]
    norm_num
  · rw [default_parse_readability]
    rfl

/-! ### Claim C1 — end-to-end scenario on the ethics example -/

/-- C1 (amended): on the ethics example with stopwords
`is`/`the`/`and`, `word_count` maps `ethics` to 3, `culture` to 1 and
`technology` to 1; there are exactly **3** valid sentences (not 2), so
`sentence_length` is their mean `11/3` and the readability fallback is
**not** applied: the record carries the clamped computed score. -/
theorem c1_end_to_end_amended (fre vader : PyStr → Except Unit ℚ) (r : ℚ)
    (hf : fre (clean_text ("Ethics. Ethics is hard. The course covers ethics, culture, and technology.".toList)) = .ok r) :
    (default_parse ("Ethics. Ethics is hard. The course covers ethics, culture, and technology.".toList)
        (["is".toList, "the".toList, "and".toList].toFinset) fre vader).word_count
        ("ethics".toList) = 3 ∧
    (default_parse ("Ethics. Ethics is hard. The course covers ethics, culture, and technology.".toList)
        (["is".toList, "the".toList, "and".toList].toFinset) fre vader).word_count
        ("culture".toList) = 1 ∧
    (default_parse ("Ethics. Ethics is hard. The course covers ethics, culture, and technology.".toList)
        (["is".toList, "the".toList, "and".toList].toFinset) fre vader).word_count
        ("technology".toList) = 1 ∧
    (validSentences (pyLower (clean_text ("Ethics. Ethics is hard. The course covers ethics, culture, and technology.".toList)))).length = 3 ∧
    (default_parse ("Ethics. Ethics is hard. The course covers ethics, culture, and technology.".toList)
        (["is".toList, "the".toList, "and".toList].toFinset) fre vader).sentence_length = 11/3 ∧
    (default_parse ("Ethics. Ethics is hard. The course covers ethics, culture, and technology.".toList)
        (["is".toList, "the".toList, "and".toList].toFinset) fre vader).readability = clamp100 r := by
  have hv : validSentences (pyLower (clean_text ("Ethics. Ethics is hard. The course covers ethics, culture, and technology.".toList))) =
      ["ethics".toList, "ethics is hard".toList,
        "the course covers ethics, culture, and technology".toList] := by
    decide
  refine ⟨?_, ?_, ?_, by decide, ?_, ?_⟩
  · rw [default_parse_word_count]
    decide
  · rw [default_parse_word_count]
    decide
  · rw [default_parse_word_count]
    decide
  · rw [default_parse_sentence_length, hv]
    rw [if_neg (by decide)]
    rw [show (List.map (fun s => (splitWs s).length)
        ["ethics".toList, "ethics is hard".toList,
          "the course covers ethics, culture, and technology".toList]).sum = 11
      from by decide]
    norm_num
  · rw [default_parse_readability, if_neg (by decide), hf]

/-- C1 witness: with a scorer returning 80, the readability of the
record is `clamp100 80` (not the fallback 50). -/
theorem c1_witness :
    (default_parse ("Ethics. Ethics is hard. The course covers ethics, culture, and technology.".toList)
        (["is".toList, "the".toList, "and".toList].toFinset)
        (fun _ => .ok 80) (fun _ => .ok 0)).readability = clamp100 80 :=
  (c1_end_to_end_amended (fun _ => .ok 80) (fun _ => .ok 0) 80 rfl).2.2.2.2.2

/-- C1 counterexample to the claim as stated: the example text has 3
valid sentences, not 2, and (with a scorer returning 80) the
readability is 80, not the fallback 50. -/
theorem c1_counterexample :
    (validSentences (pyLower (clean_text ("Ethics. Ethics is hard. The course covers ethics, culture, and technology.".toList)))).length ≠ 2 ∧
    (default_parse ("Ethics. Ethics is hard. The course covers ethics, culture, and technology.".toList)
        (["is".toList, "the".toList, "and".toList].toFinset)
        (fun _ => .ok 80) (fun _ => .ok 0)).readability ≠ 50 := by
  constructor
  · decide
  · rw [default_parse_readability, if_neg (by decide)]
    norm_num [clamp100]

/-! ### Claim C5 — `clean_text` rule order and artifact removal -/

/-- Substring test: does `pat` occur as a contiguous substring of the
second argument? -/
def listContains (pat : PyStr) : PyStr → Bool
  | [] => pat.isEmpty
  | c :: rest => pat.isPrefixOf (c :: rest) || listContains pat rest

/-- C5 (amended): `clean_text` applies its removal rules in the fixed
order timestamps → URLs → page markers → whitespace collapse + trim,
with the timestamp's `AM`/`PM` matched **case-sensitively** (uppercase
only; the pattern is compiled without `re.IGNORECASE`); on the example
input, the output is `"Visit now."`, free of the URL, timestamp and
page-marker substrings. -/
theorem c5_clean_text_amended :
    (∀ text, clean_text text =
      pyStrip (collapseAux false
        (reSub matchPage
          (reSub (fun _ => matchUrl)
            (reSub (fun _ => matchTs) text))))) ∧
    clean_text ("Visit http://x.edu now. 4/6/25, 6:08 PM 3/33".toList) =
      "Visit now.".toList ∧
    listContains ("http://x.edu".toList)
      (clean_text ("Visit http://x.edu now. 4/6/25, 6:08 PM 3/33".toList)) =
        false ∧
    listContains ("4/6/25, 6:08 PM".toList)
      (clean_text ("Visit http://x.edu now. 4/6/25, 6:08 PM 3/33".toList)) =
        false ∧
    listContains ("3/33".toList)
      (clean_text ("Visit http://x.edu now. 4/6/25, 6:08 PM 3/33".toList)) =
        false :=
  ⟨fun _ => rfl, by decide, by decide, by decide, by decide⟩

/-- C5 counterexample to the claim as stated: with a lowercase `pm` the
timestamp is *not* removed (its remnant `pm` survives cleaning), while
the uppercase variant is removed entirely — so the timestamp pattern is
case-sensitive, not case-insensitive. -/
theorem c5_counterexample :
    listContains ("pm".toList)
      (clean_text ("4/6/2025, 6:08 pm".toList)) = true ∧
    clean_text ("4/6/2025, 6:08 PM".toList) = [] := by
  constructor
  · decide
  · decide

/-! ### Claim C8 — the stopword-set normalization invariant -/

theorem pyLower_idem (s : PyStr) : pyLower (pyLower s) = pyLower s := by
  unfold pyLower
  rw [List.map_map]
  congr 1
  funext c
  exact lowerChar_idem c

theorem pyIsSpace_comp_lowerChar : pyIsSpace ∘ lowerChar = pyIsSpace :=
  funext pyIsSpace_lowerChar

theorem ltrim_pyLower (s : PyStr) : ltrim (pyLower s) = pyLower (ltrim s) := by
  unfold ltrim pyLower
  rw [List.dropWhile_map, pyIsSpace_comp_lowerChar]

theorem rtrim_pyLower (s : PyStr) : rtrim (pyLower s) = pyLower (rtrim s) := by
  unfold rtrim pyLower
  rw [← List.map_reverse, List.dropWhile_map, pyIsSpace_comp_lowerChar,
    List.map_reverse]

theorem pyStrip_pyLower (s : PyStr) :
    pyStrip (pyLower s) = pyLower (pyStrip s) := by
  unfold pyStrip
  rw [rtrim_pyLower, ltrim_pyLower]

theorem ltrim_idem (s : PyStr) : ltrim (ltrim s) = ltrim s := by
  unfold ltrim
  induction s with
  | nil => rfl
  | cons c t ih =>
    rw [List.dropWhile_cons]
    split
    · exact ih
    · next h => rw [List.dropWhile_cons, if_neg h]

theorem rtrim_cons (c : Char) (t : PyStr) :
    rtrim (c :: t) =
      if rtrim t = [] then (if pyIsSpace c = true then [] else [c])
      else c :: rtrim t := by
  unfold rtrim
  rw [List.reverse_cons, List.dropWhile_append]
  by_cases he : (t.reverse.dropWhile pyIsSpace).isEmpty = true
  · have h2 : t.reverse.dropWhile pyIsSpace = [] := by
      simpa [List.isEmpty_iff] using he
    have h3 : (t.reverse.dropWhile pyIsSpace).reverse = [] := by
      rw [h2]; rfl
    rw [if_pos he, if_pos h3, List.dropWhile_cons]
    by_cases hc : pyIsSpace c = true
    · rw [if_pos hc, if_pos hc]
      rfl
    · rw [if_neg hc, if_neg hc]
      rfl
  · have h2 : t.reverse.dropWhile pyIsSpace ≠ [] := by
      simpa [List.isEmpty_iff] using he
    have h3 : (t.reverse.dropWhile pyIsSpace).reverse ≠ [] := by
      intro hc
      exact h2 (by simpa using congrArg List.reverse hc)
    rw [if_neg he, if_neg h3, List.reverse_append]
    rfl

theorem ltrim_cons_pos {c : Char} (hc : pyIsSpace c = true) (t : PyStr) :
    ltrim (c :: t) = ltrim t := by
  unfold ltrim
  rw [List.dropWhile_cons, if_pos hc]

theorem ltrim_cons_neg {c : Char} (hc : ¬ pyIsSpace c = true) (t : PyStr) :
    ltrim (c :: t) = c :: t := by
  unfold ltrim
  rw [List.dropWhile_cons, if_neg hc]

theorem ltrim_rtrim_comm (s : PyStr) : ltrim (rtrim s) = rtrim (ltrim s) := by
  induction s with
  | nil => rfl
  | cons c t ih =>
    rw [rtrim_cons]
    by_cases hc : pyIsSpace c = true
    · by_cases hrt : rtrim t = []
      · rw [if_pos hrt, if_pos hc, ltrim_cons_pos hc, ← ih, hrt]
      · rw [if_neg hrt, ltrim_cons_pos hc (rtrim t), ih, ltrim_cons_pos hc t]
    · by_cases hrt : rtrim t = []
      · rw [if_pos hrt, if_neg hc, ltrim_cons_neg hc t, rtrim_cons,
          if_pos hrt, if_neg hc]
        exact ltrim_cons_neg hc []
      · rw [if_neg hrt, ltrim_cons_neg hc t, rtrim_cons, if_neg hrt]
        exact ltrim_cons_neg hc (rtrim t)

theorem rtrim_idem (s : PyStr) : rtrim (rtrim s) = rtrim s := by
  unfold rtrim
  rw [List.reverse_reverse]
  show (ltrim (ltrim s.reverse)).reverse = (ltrim s.reverse).reverse
  rw [ltrim_idem]

theorem pyStrip_idem (s : PyStr) : pyStrip (pyStrip s) = pyStrip s := by
  unfold pyStrip
  rw [ltrim_rtrim_comm (ltrim (rtrim s)), ltrim_idem, ← ltrim_rtrim_comm,
    rtrim_idem]

theorem normalizeWord_lower (w : PyStr) :
    pyLower (normalizeWord w) = normalizeWord w := by
  unfold normalizeWord
  exact pyLower_idem _

theorem normalizeWord_stripped (w : PyStr) :
    pyStrip (normalizeWord w) = normalizeWord w := by
  unfold normalizeWord
  rw [pyStrip_pyLower, pyStrip_idem]

/-- The (amended) stopword-set invariant: every entry is lowercase and
whitespace-trimmed (i.e. fixed by `pyLower` and by `pyStrip`). -/
def NormInv (S : Stopwords) : Prop :=
  ∀ e ∈ S, pyLower e = e ∧ pyStrip e = e

theorem normInv_add {S : Stopwords} (hS : NormInv S) (w : PyStr) :
    NormInv (add_stopword S w) := by
  intro e he
  rcases Finset.mem_insert.mp he with rfl | hmem
  · exact ⟨normalizeWord_lower w, normalizeWord_stripped w⟩
  · exact hS e hmem

theorem normInv_remove {S : Stopwords} (hS : NormInv S) (w : PyStr) :
    NormInv (remove_stopword S w) := by
  intro e he
  exact hS e (Finset.mem_of_mem_erase he)

theorem normInv_load (c : PyStr) : NormInv (load_stop_words c) := by
  intro e he
  simp only [load_stop_words, List.mem_toFinset, List.mem_map] at he
  obtain ⟨line, _, rfl⟩ := he
  exact ⟨normalizeWord_lower line, normalizeWord_stripped line⟩

theorem normInv_update (a : PyStr) :
    ∀ (wl : List PyStr) (S T : Stopwords), NormInv S → NormInv T →
      NormInv (match update_stopwords S wl a with
        | .ok S2 => S2
        | .error _ => T) := by
  intro wl
  induction wl with
  | nil =>
    intro S T hS hT
    exact hS
  | cons w rest ih =>
    intro S T hS hT
    unfold update_stopwords
    by_cases ha : a = "add".toList
    · rw [if_pos ha]
      exact ih (add_stopword S w) T (normInv_add hS w) hT
    · rw [if_neg ha]
      by_cases hr : a = "remove".toList
      · rw [if_pos hr]
        exact ih (remove_stopword S w) T (normInv_remove hS w) hT
      · rw [if_neg hr]
        exact hT

theorem normInv_applyOp {S : Stopwords} (hS : NormInv S) (op : StopOp) :
    NormInv (applyOp S op) := by
  cases op with
  | load c => exact normInv_load c
  | add w => exact normInv_add hS w
  | remove w => exact normInv_remove hS w
  | update wl a => exact normInv_update a wl S S hS hS

theorem normInv_applyOps :
    ∀ (ops : List StopOp) (S : Stopwords), NormInv S →
      NormInv (applyOps S ops) := by
  intro ops
  induction ops with
  | nil =>
    intro S hS
    exact hS
  | cons op t ih =>
    intro S hS
    exact ih (applyOp S op) (normInv_applyOp hS op)

/-- C8 (amended): after any sequence of stopword operations starting
from the empty set, every entry of the stopword set is lowercase and
whitespace-trimmed.  (Entries may be *empty*: blank lines on load and
whitespace-only words normalize to the empty string, so the non-empty
part of the claimed invariant fails.) -/
theorem c8_invariant_amended (ops : List StopOp) (e : PyStr)
    (he : e ∈ applyOps ∅ ops) : pyLower e = e ∧ pyStrip e = e :=
  normInv_applyOps ops ∅ (fun x hx => absurd hx (Finset.not_mem_empty x)) e he

/-- C8 witness: after adding `" The "`, the entry `"the"` is lowercase
and trimmed. -/
theorem c8_witness :
    pyLower ("the".toList) = "the".toList ∧
    pyStrip ("the".toList) = "the".toList :=
  c8_invariant_amended [StopOp.add (" The ".toList)] ("the".toList) (by decide)

/-- C8 counterexample to the claim as stated: adding the whitespace-only
word `" "` puts the *empty* entry into the set — empty after trimming,
violating the non-emptiness part of the invariant. -/
theorem c8_counterexample :
    ([] : PyStr) ∈ applyOps ∅ [StopOp.add [' ']] ∧ pyStrip [] = [] := by
  constructor
  · decide
  · rfl

/-! ### Claim C7 — stopword save/load round trip -/

theorem univNlAux_no_cr : ∀ {l : PyStr}, '\r' ∉ l →
    univNlAux false l = l := by
  intro l
  induction l with
  | nil => intro _; rfl
  | cons c t ih =>
    intro h
    have hc : ¬ c = '\r' := fun hc => h (hc ▸ List.mem_cons_self c t)
    have ht : '\r' ∉ t := fun hm => h (List.mem_cons_of_mem c hm)
    simp only [univNlAux]
    rw [if_neg hc]
    by_cases hn : c = '\n'
    · rw [if_pos hn, if_neg (by simp), ih ht, hn]
    · rw [if_neg hn, ih ht]

theorem univNl_no_cr {l : PyStr} (h : '\r' ∉ l) : univNl l = l :=
  univNlAux_no_cr h

theorem readlinesAux_line {w : PyStr} (hw : '\n' ∉ w) :
    ∀ (acc rest : PyStr),
      readlinesAux acc (w ++ '\n' :: rest) =
        ((acc.reverse ++ w) ++ ['\n']) :: readlinesAux [] rest := by
  induction w with
  | nil =>
    intro acc rest
    show readlinesAux acc ('\n' :: rest) = _
    simp only [readlinesAux, if_pos rfl]
    simp
  | cons c w2 ih =>
    intro acc rest
    have hc : ¬ c = '\n' := fun hce => hw (hce ▸ List.mem_cons_self c w2)
    have hw2 : '\n' ∉ w2 := fun hm => hw (List.mem_cons_of_mem c hm)
    show readlinesAux acc (c :: (w2 ++ '\n' :: rest)) = _
    simp only [readlinesAux]
    rw [if_neg hc, ih hw2 (c :: acc) rest]
    simp [List.append_assoc]

theorem readlines_flatten : ∀ (ws : List PyStr), (∀ w ∈ ws, '\n' ∉ w) →
    readlinesAux [] ((ws.map (fun w => w ++ ['\n'])).flatten) =
      ws.map (fun w => w ++ ['\n']) := by
  intro ws
  induction ws with
  | nil => intro _; rfl
  | cons w t ih =>
    intro h
    rw [List.map_cons, List.flatten_cons]
    have hassoc : (w ++ ['\n']) ++ (t.map (fun w => w ++ ['\n'])).flatten =
        w ++ '\n' :: (t.map (fun w => w ++ ['\n'])).flatten := by
      rw [List.append_assoc]
      rfl
    rw [hassoc, readlinesAux_line (h w (List.mem_cons_self w t)) [] _]
    rw [ih (fun x hx => h x (List.mem_cons_of_mem w hx))]
    simp

theorem pyStrip_append_nl (w : PyStr) :
    pyStrip (w ++ ['\n']) = pyStrip w := by
  unfold pyStrip rtrim
  rw [List.reverse_append]
  show ltrim ((List.dropWhile pyIsSpace ('\n' :: w.reverse)).reverse) = _
  rw [List.dropWhile_cons, if_pos (by decide)]

theorem normalizeWord_append_nl (w : PyStr) :
    normalizeWord (w ++ ['\n']) = normalizeWord w := by
  unfold normalizeWord
  rw [pyStrip_append_nl]

/-- C7 (amended): for every stopword set whose words contain no newline
or carriage-return characters, loading the saved file reconstructs
exactly the image of the set under `strip`/`lower` normalization.
(Words with embedded line breaks are split across file lines by the
newline-delimited format, so the round trip fails for them.) -/
theorem c7_roundtrip_amended (S : Stopwords)
    (h : ∀ w ∈ S, '\n' ∉ w ∧ '\r' ∉ w) :
    load_stop_words (save_stopwords S) = Finset.image normalizeWord S := by
  unfold load_stop_words readlines save_stopwords
  have hmem : ∀ w ∈ Finset.sort wordLe S, w ∈ S :=
    fun w hw => (Finset.mem_sort wordLe).mp hw
  have hnonl : ∀ w ∈ Finset.sort wordLe S, '\n' ∉ w :=
    fun w hw => (h w (hmem w hw)).1
  have hnocr :
      '\r' ∉ ((Finset.sort wordLe S).map (fun w => w ++ ['\n'])).flatten := by
    intro hmem2
    rw [List.mem_flatten] at hmem2
    obtain ⟨l, hl, hcl⟩ := hmem2
    rw [List.mem_map] at hl
    obtain ⟨w, hw, rfl⟩ := hl
    rcases List.mem_append.mp hcl with hcw | hcn
    · exact (h w (hmem w hw)).2 hcw
    · simp at hcn
  rw [univNl_no_cr hnocr, readlines_flatten _ hnonl, List.map_map]
  have hcomp : (normalizeWord ∘ fun w => w ++ ['\n']) = normalizeWord :=
    funext fun w => normalizeWord_append_nl w
  rw [hcomp]
  ext a
  simp only [List.mem_toFinset, List.mem_map, Finset.mem_image,
    Finset.mem_sort]

/-- C7 witness: the round trip on the concrete set
`{"beta", " Alpha "}` yields its normalized image `{"beta", "alpha"}`. -/
theorem c7_witness :
    load_stop_words (save_stopwords (["beta".toList, " Alpha ".toList].toFinset)) =
      Finset.image normalizeWord (["beta".toList, " Alpha ".toList].toFinset) :=
  c7_roundtrip_amended (["beta".toList, " Alpha ".toList].toFinset) (by decide)

/-- C7 counterexample to the claim as stated: the one-word set
`{"a\nb"}` is written as two file lines, so loading reconstructs
`{"a", "b"}`, not the normalized image `{"a\nb"}`. -/
theorem c7_counterexample :
    load_stop_words (save_stopwords ({['a', '\n', 'b']} : Stopwords)) ≠
      Finset.image normalizeWord ({['a', '\n', 'b']} : Stopwords) := by
  unfold save_stopwords
  rw [Finset.sort_singleton (r := wordLe)]
  decide

end NLPF
